import Mathlib

/-!
Verification of the robots.txt parsing and matching engine.

Strings are embedded as `List Char` (one entry per UTF-16 code unit of the
original JavaScript string; all inputs relevant here are BMP characters, for
which code units and scalar values coincide).  Each definition mirrors one
function of the source; stateful classes become explicit state records with
handler functions threading the state.
-/

namespace Robots

/-- The set of characters removed by JavaScript `String.prototype.trim` and
matched by the regex class `\s`. -/
def isJsSpace (c : Char) : Bool :=
  c.toNat = 9 || c.toNat = 10 || c.toNat = 11 || c.toNat = 12 || c.toNat = 13 ||
  c.toNat = 32 || c.toNat = 160 || c.toNat = 0x1680 ||
  (0x2000 ≤ c.toNat && c.toNat ≤ 0x200A) ||
  c.toNat = 0x2028 || c.toNat = 0x2029 || c.toNat = 0x202F ||
  c.toNat = 0x205F || c.toNat = 0x3000 || c.toNat = 0xFEFF

/-- JavaScript `String.prototype.trim`. -/
def jsTrim (l : List Char) : List Char :=
  ((l.dropWhile isJsSpace).reverse.dropWhile isJsSpace).reverse

/-- `Array.prototype.indexOf` for a single character (`none` models `-1`). -/
def indexOfChar (l : List Char) (c : Char) : Option Nat :=
  l.findIdx? (· = c)

/-- `String.prototype.lastIndexOf` for a single character (`none` models `-1`). -/
def lastIndexOfChar (l : List Char) (c : Char) : Option Nat :=
  (l.reverse.findIdx? (· = c)).map (fun i => l.length - 1 - i)

/-- `matches` from `parser.ts` (the `pos` array of the NFA simulation becomes
the list argument; the pattern is consumed recursively in place of the main
loop). -/
def matchesLoop (path : List Char) (pathLen : Nat) : List Char → List Nat → Bool
  | [], _pos => true
  | p :: ps, pos =>
    if p = '$' ∧ ps = [] then
      -- `return pos[numPos - 1] === pathLen`
      decide (pos.getLastD 0 = pathLen)
    else if p = '*' then
      -- `numPos = pathLen - pos[0] + 1; pos[i] = pos[i-1] + 1`
      matchesLoop path pathLen ps
        ((List.range (pathLen + 1 - pos.headD 0)).map (pos.headD 0 + ·))
    else
      -- `if (pos[i] < pathLen && path[pos[i]] === pat) pos[newNumPos++] = pos[i] + 1`
      let newPos := pos.filterMap (fun o =>
        if o < pathLen ∧ path.getD o ' ' = p then some (o + 1) else none)
      -- `if (newNumPos === 0) return false`
      if newPos = [] then false else matchesLoop path pathLen ps newPos

/-- `matches(path, pattern)` from `parser.ts`. -/
def patternMatches (path pattern : List Char) : Bool :=
  matchesLoop path path.length pattern [0]

/-- Minimum of a list of naturals (`d` returned for the empty list). -/
def minimumD (l : List Nat) (d : Nat) : Nat :=
  match l with
  | [] => d
  | x :: xs => xs.foldl min x

/-- Modelled from the spec: the frontier semantics of §4.1, written with the
spec's words — a final `$` succeeds iff some reachable offset equals
`path.length`; `*` replaces the frontier by the contiguous range from its
minimum to `path.length`; a literal advances exactly the offsets whose path
character equals it; success iff the pattern is fully consumed with a
non-empty frontier. -/
def matchesSpecLoop (path : List Char) (pathLen : Nat) : List Char → List Nat → Bool
  | [], pos => decide (pos ≠ [])
  | p :: ps, pos =>
    if p = '$' ∧ ps = [] then
      decide (pathLen ∈ pos)
    else if p = '*' then
      matchesSpecLoop path pathLen ps
        ((List.range (pathLen + 1 - minimumD pos 0)).map (minimumD pos 0 + ·))
    else
      let newPos := pos.filterMap (fun o =>
        if path.get? o = some p then some (o + 1) else none)
      if newPos = [] then false else matchesSpecLoop path pathLen ps newPos

/-- Modelled from the spec: `matches` as described in §4.1, starting from
frontier `{0}`. -/
def matchesSpec (path pattern : List Char) : Bool :=
  matchesSpecLoop path path.length pattern [0]

/-- The loop invariant of the frontier: non-empty, strictly sorted, bounded by
the path length. -/
def FrontierInv (L : Nat) (pos : List Nat) : Prop :=
  pos ≠ [] ∧ pos.Pairwise (· < ·) ∧ ∀ o ∈ pos, o ≤ L

theorem getLastD_mem {pos : List Nat} (h : pos ≠ []) : pos.getLastD 0 ∈ pos := by
  induction pos with
  | nil => exact absurd rfl h
  | cons a t ih =>
    cases t with
    | nil => simp
    | cons b t' => simpa using Or.inr (ih (by simp))

theorem le_getLastD {pos : List Nat} (hs : pos.Pairwise (· < ·)) :
    ∀ x ∈ pos, x ≤ pos.getLastD 0 := by
  induction pos with
  | nil => intro x hx; cases hx
  | cons a t ih =>
    intro x hx
    rcases List.mem_cons.mp hx with rfl | hxt
    · cases t with
      | nil => simp
      | cons b t' =>
        have hab : x < b := (List.pairwise_cons.mp hs).1 b (by simp)
        have hb := ih (List.pairwise_cons.mp hs).2 b (by simp)
        calc x ≤ b := Nat.le_of_lt hab
        _ ≤ _ := by simpa using hb
    · cases t with
      | nil => cases hxt
      | cons b t' =>
        simpa using ih (List.pairwise_cons.mp hs).2 x hxt

theorem getLastD_eq_iff_mem {pos : List Nat} {L : Nat} (hinv : FrontierInv L pos) :
    pos.getLastD 0 = L ↔ L ∈ pos := by
  obtain ⟨hne, hs, hb⟩ := hinv
  constructor
  · intro h; rw [← h]; exact getLastD_mem hne
  · intro hL
    exact Nat.le_antisymm (hb _ (getLastD_mem hne)) (le_getLastD hs L hL)

theorem foldl_min_of_le {x : Nat} {xs : List Nat} (h : ∀ y ∈ xs, x ≤ y) :
    xs.foldl min x = x := by
  induction xs with
  | nil => rfl
  | cons y ys ih =>
    have hxy : min x y = x := Nat.min_eq_left (h y (by simp))
    simp only [List.foldl_cons, hxy]
    exact ih (fun z hz => h z (by simp [hz]))

theorem headD_eq_minimumD {pos : List Nat} (hs : pos.Pairwise (· < ·)) :
    pos.headD 0 = minimumD pos 0 := by
  cases pos with
  | nil => rfl
  | cons a t =>
    have : ∀ y ∈ t, a ≤ y := fun y hy =>
      Nat.le_of_lt ((List.pairwise_cons.mp hs).1 y hy)
    simp [minimumD, foldl_min_of_le this]

theorem starFrontierInv {L a : Nat} (ha : a ≤ L) :
    FrontierInv L ((List.range (L + 1 - a)).map (a + ·)) := by
  refine ⟨?_, ?_, ?_⟩
  · have : L + 1 - a ≠ 0 := by omega
    simp [List.map_eq_nil_iff, List.range_eq_nil, this]
  · refine List.Pairwise.map _ ?_ (List.pairwise_lt_range _)
    intro i j hij; omega
  · intro o ho
    obtain ⟨i, hi, rfl⟩ := List.mem_map.mp ho
    have := List.mem_range.mp hi
    omega

theorem filterMap_if_succ (P : Nat → Prop) [DecidablePred P] (pos : List Nat) :
    pos.filterMap (fun o => if P o then some (o + 1) else none)
      = (pos.filter (fun o => decide (P o))).map (· + 1) := by
  induction pos with
  | nil => rfl
  | cons a t ih =>
    by_cases h : P a <;> simp [List.filterMap_cons, List.filter_cons, h, ih]

theorem stepFrontierInv {L : Nat} {pos : List Nat} (P : Nat → Prop) [DecidablePred P]
    (hinv : FrontierInv L pos) (hP : ∀ o, P o → o < L)
    (hne : pos.filterMap (fun o => if P o then some (o + 1) else none) ≠ []) :
    FrontierInv L (pos.filterMap (fun o => if P o then some (o + 1) else none)) := by
  obtain ⟨_, hs, _⟩ := hinv
  rw [filterMap_if_succ] at hne ⊢
  refine ⟨hne, ?_, ?_⟩
  · refine List.Pairwise.map _ ?_ (hs.filter _)
    intro i j hij; omega
  · intro o ho
    obtain ⟨i, hi, rfl⟩ := List.mem_map.mp ho
    have := hP i (by simpa using List.of_mem_filter hi)
    omega

theorem get?_iff_getD (path : List Char) (o : Nat) (p : Char) :
    path.get? o = some p ↔ (o < path.length ∧ path.getD o ' ' = p) := by
  by_cases hlt : o < path.length
  · have h1 : path.get? o = some (path.getD o ' ') := by
      rw [List.getD_eq_getD_get?]
      cases h : path.get? o with
      | none => exact absurd (List.get?_eq_none.mp h) (Nat.not_le_of_lt hlt)
      | some a => rfl
    rw [h1]
    simp [hlt]
  · rw [List.get?_eq_none.mpr (Nat.le_of_not_lt hlt)]
    simp [hlt]

theorem matchesLoop_eq_spec (path : List Char) (pat : List Char) :
    ∀ pos, FrontierInv path.length pos →
      matchesLoop path path.length pat pos = matchesSpecLoop path path.length pat pos := by
  induction pat with
  | nil =>
    intro pos hinv
    simp [matchesLoop, matchesSpecLoop, hinv.1]
  | cons p ps ih =>
    intro pos hinv
    simp only [matchesLoop, matchesSpecLoop]
    by_cases hdollar : p = '$' ∧ ps = []
    · rw [if_pos hdollar, if_pos hdollar]
      exact decide_eq_decide.mpr (getLastD_eq_iff_mem hinv)
    · rw [if_neg hdollar, if_neg hdollar]
      by_cases hstar : p = '*'
      · rw [if_pos hstar, if_pos hstar]
        have hmin : pos.headD 0 ≤ path.length := by
          cases pos with
          | nil => exact absurd rfl hinv.1
          | cons a t => exact hinv.2.2 a (by simp)
        rw [headD_eq_minimumD hinv.2.1] at hmin
        rw [headD_eq_minimumD hinv.2.1]
        exact ih _ (starFrontierInv hmin)
      · rw [if_neg hstar, if_neg hstar]
        have hsame : pos.filterMap (fun o =>
              if o < path.length ∧ path.getD o ' ' = p then some (o + 1) else none)
            = pos.filterMap (fun o =>
              if path.get? o = some p then some (o + 1) else none) :=
          List.filterMap_congr (fun o _ =>
            if_congr (get?_iff_getD path o p).symm rfl rfl)
        rw [hsame]
        by_cases hne : (pos.filterMap (fun o =>
            if path.get? o = some p then some (o + 1) else none)) = []
        · rw [if_pos hne, if_pos hne]
        · rw [if_neg hne, if_neg hne]
          refine ih _ (stepFrontierInv (fun o => path.get? o = some p) hinv ?_ hne)
          intro o ho
          exact ((get?_iff_getD path o p).mp ho).1

/-- C5: the code's `matches` computes exactly the spec's frontier semantics. -/
theorem matches_eq_matchesSpec (path pattern : List Char) :
    patternMatches path pattern = matchesSpec path pattern := by
  apply matchesLoop_eq_spec
  refine ⟨by simp, by simp, ?_⟩
  intro o ho
  simp at ho
  omega

/-! ### Key classification (`parsed-key.ts`) and escaping (`url-utils.ts`) -/

/-- `KeyType` from `types.ts`. -/
inductive KeyType where
  | userAgent
  | sitemap
  | allow
  | disallow
  | unknown
deriving DecidableEq, Repr

/-- `K_ALLOW_FREQUENT_TYPOS` from `constants.ts`. -/
def kAllowFrequentTypos : Bool := true

/-- `startsWithIgnoreCase` from `parsed-key.ts` (`key.toLowerCase().startsWith(p)`;
`Char.toLower` lowercases the ASCII letters, which is all these checks need). -/
def startsWithIgnoreCase (key pre : List Char) : Bool :=
  (pre.map Char.toLower).isPrefixOf (key.map Char.toLower)

/-- `keyIsUserAgent` from `parsed-key.ts`. -/
def keyIsUserAgent (key : List Char) : Bool :=
  startsWithIgnoreCase key "user-agent".toList ||
  (kAllowFrequentTypos &&
    (startsWithIgnoreCase key "useragent".toList ||
     startsWithIgnoreCase key "user agent".toList))

/-- `isUserAgentTypo` from `parsed-key.ts`. -/
def isUserAgentTypo (key : List Char) : Bool :=
  kAllowFrequentTypos &&
    (startsWithIgnoreCase key "useragent".toList ||
     startsWithIgnoreCase key "user agent".toList)

/-- `keyIsAllow` from `parsed-key.ts` — no typos accepted for `allow`. -/
def keyIsAllow (key : List Char) : Bool :=
  startsWithIgnoreCase key "allow".toList

/-- `keyIsDisallow` from `parsed-key.ts`. -/
def keyIsDisallow (key : List Char) : Bool :=
  startsWithIgnoreCase key "disallow".toList ||
  (kAllowFrequentTypos &&
    (startsWithIgnoreCase key "dissallow".toList ||
     startsWithIgnoreCase key "dissalow".toList ||
     startsWithIgnoreCase key "disalow".toList ||
     startsWithIgnoreCase key "diasllow".toList ||
     startsWithIgnoreCase key "disallaw".toList))

/-- `isDisallowTypo` from `parsed-key.ts`. -/
def isDisallowTypo (key : List Char) : Bool :=
  kAllowFrequentTypos &&
    (startsWithIgnoreCase key "dissallow".toList ||
     startsWithIgnoreCase key "dissalow".toList ||
     startsWithIgnoreCase key "disalow".toList ||
     startsWithIgnoreCase key "diasllow".toList ||
     startsWithIgnoreCase key "disallaw".toList)

/-- `keyIsSitemap` from `parsed-key.ts`. -/
def keyIsSitemap (key : List Char) : Bool :=
  startsWithIgnoreCase key "sitemap".toList ||
  (kAllowFrequentTypos && startsWithIgnoreCase key "site-map".toList)

/-- `isSitemapTypo` from `parsed-key.ts`. -/
def isSitemapTypo (key : List Char) : Bool :=
  kAllowFrequentTypos && startsWithIgnoreCase key "site-map".toList

/-- Result of `ParsedRobotsKey.parse` (`unknownText` is `[]` unless the key is
unknown, mirroring the `undefined` field). -/
structure ParsedKeyResult where
  type : KeyType
  isAcceptableTypo : Bool
  unknownText : List Char
deriving DecidableEq, Repr

/-- `ParsedRobotsKey.parse` from `parsed-key.ts`. -/
def parsedKeyParse (key : List Char) : ParsedKeyResult :=
  if keyIsUserAgent key then ⟨.userAgent, isUserAgentTypo key, []⟩
  else if keyIsAllow key then ⟨.allow, false, []⟩
  else if keyIsDisallow key then ⟨.disallow, isDisallowTypo key, []⟩
  else if keyIsSitemap key then ⟨.sitemap, isSitemapTypo key, []⟩
  else ⟨.unknown, false, key⟩

/-- `RobotsTxtParser.needEscapeValueForKey` from `parser.ts`. -/
def needEscapeValueForKey : KeyType → Bool
  | .userAgent => false
  | .sitemap => false
  | _ => true

/-- Character class `[0-9A-Fa-f]` of `isHexDigit` in `url-utils.ts`. -/
def isHexDigitChar (c : Char) : Bool :=
  ('0' ≤ c && c ≤ '9') || ('A' ≤ c && c ≤ 'F') || ('a' ≤ c && c ≤ 'f')

/-- `isLower` from `url-utils.ts`. -/
def isLowerChar (c : Char) : Bool :=
  'a' ≤ c && c ≤ 'z'

/-- `K_HEX_DIGITS` from `constants.ts`. -/
def kHexDigits : List Char := "0123456789ABCDEF".toList

/-- UTF-8 bytes of a scalar value (what `TextEncoder.encode` produces for one
character). -/
def utf8Bytes (n : Nat) : List Nat :=
  if n < 0x80 then [n]
  else if n < 0x800 then [0xC0 + n / 64, 0x80 + n % 64]
  else if n < 0x10000 then
    [0xE0 + n / 4096, 0x80 + (n / 64) % 64, 0x80 + n % 64]
  else
    [0xF0 + n / 262144, 0x80 + (n / 4096) % 64, 0x80 + (n / 64) % 64,
     0x80 + n % 64]

/-- `'%' + K_HEX_DIGITS[(byte >> 4) & 0xf] + K_HEX_DIGITS[byte & 0xf]`. -/
def percentEncodeByte (b : Nat) : List Char :=
  ['%', kHexDigits.getD (b / 16 % 16) '0', kHexDigits.getD (b % 16) '0']

/-- First pass of `maybeEscapePattern`: `(numToEscape, needCapitalize)`. -/
def escScan : List Char → Nat × Bool
  | '%' :: a :: b :: rest =>
    if isHexDigitChar a && isHexDigitChar b then
      -- `(a) % escape sequence` — skip the two hex digits (`i += 2`)
      let r := escScan rest
      (r.1, r.2 || isLowerChar a || isLowerChar b)
    else
      -- `%` itself is ASCII, so it falls to case (c); continue at `i + 1`
      escScan (a :: b :: rest)
  | c :: rest =>
    let r := escScan rest
    (if c.toNat > 127 then r.1 + 1 else r.1, r.2)
  | [] => (0, false)

/-- Second pass of `maybeEscapePattern`: build the escaped string. -/
def escBuild : List Char → List Char
  | '%' :: a :: b :: rest =>
    if isHexDigitChar a && isHexDigitChar b then
      '%' :: a.toUpper :: b.toUpper :: escBuild rest
    else
      '%' :: escBuild (a :: b :: rest)
  | c :: rest =>
    if c.toNat > 127 then (utf8Bytes c.toNat).flatMap percentEncodeByte ++ escBuild rest
    else c :: escBuild rest
  | [] => []

/-- `maybeEscapePattern` from `url-utils.ts`: `(escaped, wasEscaped)`. -/
def maybeEscapePattern (src : List Char) : List Char × Bool :=
  let r := escScan src
  if r.1 = 0 && !r.2 then (src, false) else (escBuild src, true)

/-! ### The line parser (`parser.ts`) -/

/-- `LineMetadata` from `types.ts`. -/
structure LineMetadata where
  isEmpty : Bool
  hasComment : Bool
  isComment : Bool
  hasDirective : Bool
  isAcceptableTypo : Bool
  isLineTooLong : Bool
  isMissingColonSeparator : Bool
deriving DecidableEq, Repr

/-- `createLineMetadata` from `types.ts`. -/
def createLineMetadata : LineMetadata :=
  ⟨false, false, false, false, false, false, false⟩

/-- `processedLine.split(/[ \t]+/)`: JavaScript split semantics for a run of
spaces/tabs as separator (a leading separator yields a leading empty part, a
trailing separator a trailing empty part). -/
def splitWsTokens : List Char → List (List Char)
  | [] => [[]]
  | c :: cs =>
    let rest := splitWsTokens cs
    if c = ' ' ∨ c = '\t' then
      match cs with
      | c2 :: _ => if c2 = ' ' ∨ c2 = '\t' then rest else [] :: rest
      | [] => [] :: rest
    else
      match rest with
      | r :: rs => (c :: r) :: rs
      | [] => [[c]]

/-- Result of `getKeyAndValueFrom`. -/
structure KeyValueResult where
  key : List Char
  value : List Char
  metadata : LineMetadata
deriving DecidableEq, Repr

/-- `RobotsTxtParser.getKeyAndValueFrom` from `parser.ts`. -/
def getKeyAndValueFrom (line : List Char) : KeyValueResult :=
  let md0 := createLineMetadata
  let commentPos := indexOfChar line '#'
  let md1 := match commentPos with
    | some _ => { md0 with hasComment := true }
    | none => md0
  let processed0 := match commentPos with
    | some i => line.take i
    | none => line
  let processed := jsTrim processed0
  if processed = [] then
    if md1.hasComment then ⟨[], [], { md1 with isComment := true }⟩
    else ⟨[], [], { md1 with isEmpty := true }⟩
  else
    match indexOfChar processed ':' with
    | none =>
      let parts := splitWsTokens processed
      if parts.length = 2 then
        ⟨parts.getD 0 [], parts.getD 1 [],
         { md1 with isMissingColonSeparator := true, hasDirective := true }⟩
      else ⟨[], [], md1⟩
    | some sepPos =>
      let key := jsTrim (processed.take sepPos)
      let value := jsTrim (processed.drop (sepPos + 1))
      if key.length > 0 then ⟨key, value, { md1 with hasDirective := true }⟩
      else ⟨[], [], md1⟩

/-- One handler callback of `RobotsParseHandler`, reified as data so that a
whole parse is the ordered list of callbacks it makes. -/
inductive PEvent where
  | start
  | endOfFile
  | userAgent (lineNum : Nat) (value : List Char)
  | allow (lineNum : Nat) (value : List Char)
  | disallow (lineNum : Nat) (value : List Char)
  | sitemap (lineNum : Nat) (value : List Char)
  | unknown (lineNum : Nat) (action : List Char) (value : List Char)
  | lineMetadata (lineNum : Nat) (md : LineMetadata)
deriving DecidableEq, Repr

/-- `RobotsTxtParser.emitKeyValueToHandler` from `parser.ts`. -/
def emitKeyValueToHandler (lineNum : Nat) (keyType : KeyType)
    (value unknownText : List Char) : PEvent :=
  match keyType with
  | .userAgent => .userAgent lineNum value
  | .allow => .allow lineNum value
  | .disallow => .disallow lineNum value
  | .sitemap => .sitemap lineNum value
  | .unknown => .unknown lineNum unknownText value

/-- `RobotsTxtParser.parseAndEmitLine` from `parser.ts`. -/
def parseAndEmitLine (lineNum : Nat) (line : List Char) (lineTooLong : Bool) :
    List PEvent :=
  let r := getKeyAndValueFrom line
  let md := { r.metadata with isLineTooLong := lineTooLong }
  if md.hasDirective = false then
    [.lineMetadata lineNum md]
  else
    let kr := parsedKeyParse r.key
    let md := { md with isAcceptableTypo := kr.isAcceptableTypo }
    let value :=
      if needEscapeValueForKey kr.type then (maybeEscapePattern r.value).1
      else r.value
    [emitKeyValueToHandler lineNum kr.type value kr.unknownText,
     .lineMetadata lineNum md]

/-- `K_MAX_LINE_LEN` from `constants.ts`. -/
def kMaxLineLen : Nat := 2083 * 8

/-- `UTF8_BOM` from `constants.ts`. -/
def utf8BOM : List Nat := [0xEF, 0xBB, 0xBF]

/-- Loop state of `RobotsTxtParser.parse`. -/
structure ParserState where
  lineBuffer : List Char
  lineNum : Nat
  bomPos : Nat
  lastWasCarriageReturn : Bool
  lineTooLong : Bool
deriving DecidableEq, Repr

/-- The byte loop of `RobotsTxtParser.parse` from `parser.ts`, producing the
ordered events of the rest of the parse (including the final-line emit and
the `handleRobotsEnd` call). -/
def parseLoop : List Char → ParserState → List PEvent
  | [], st =>
    -- `lineNum++; parseAndEmitLine(lineNum, lineBuffer, lineTooLong); handleRobotsEnd()`
    parseAndEmitLine (st.lineNum + 1) st.lineBuffer st.lineTooLong ++ [.endOfFile]
  | c :: rest, st =>
    if st.bomPos < utf8BOM.length ∧ c.toNat = utf8BOM.getD st.bomPos 0 then
      parseLoop rest { st with bomPos := st.bomPos + 1 }
    else
      -- `bomPos = UTF8_BOM.length` — disable BOM check after mismatch
      let st := { st with bomPos := utf8BOM.length }
      if c.toNat = 0x0a ∨ c.toNat = 0x0d then
        let isCRLFContinuation :=
          st.lineBuffer.length = 0 ∧ st.lastWasCarriageReturn ∧ c.toNat = 0x0a
        if isCRLFContinuation then
          parseLoop rest
            { st with lineBuffer := [],
                      lastWasCarriageReturn := decide (c.toNat = 0x0d) }
        else
          parseAndEmitLine (st.lineNum + 1) st.lineBuffer st.lineTooLong ++
            parseLoop rest
              { st with lineNum := st.lineNum + 1,
                        lineBuffer := [],
                        lastWasCarriageReturn := decide (c.toNat = 0x0d),
                        lineTooLong := false }
      else
        if st.lineBuffer.length < kMaxLineLen - 1 then
          parseLoop rest
            { st with lineBuffer := st.lineBuffer ++ [c],
                      lastWasCarriageReturn := false }
        else
          parseLoop rest
            { st with lineTooLong := true,
                      lastWasCarriageReturn := false }

/-- Initial loop state of `RobotsTxtParser.parse`. -/
def initParserState : ParserState := ⟨[], 0, 0, false, false⟩

/-- `parseRobotsTxt` from `parser.ts` as the ordered list of handler events. -/
def parseEvents (robotsBody : List Char) : List PEvent :=
  .start :: parseLoop robotsBody initParserState

/-! ### URL path extraction (`url-utils.ts`) -/

/-- `url.indexOf(pat, start)`: first index `≥ start` where `pat` occurs
(`none` models `-1`). -/
def indexOfFrom (l pat : List Char) (start : Nat) : Option Nat :=
  (List.range (l.length + 1)).find?
    (fun i => start ≤ i && pat.isPrefixOf (l.drop i))

/-- The path-character scan of `getPathParamsQuery`: `/`, `?` or `;`. -/
def isPathDelim (c : Char) : Bool :=
  c = '/' || c = '?' || c = ';'

/-- `getPathParamsQuery` from `url-utils.ts`. -/
def getPathParamsQuery (url : List Char) : List Char :=
  -- Initial two slashes are ignored.
  let searchStart : Nat :=
    if url.length ≥ 2 ∧ url.getD 0 ' ' = '/' ∧ url.getD 1 ' ' = '/' then 2 else 0
  -- Find first path character (/, ?, ;)
  let earlyPath : Option Nat :=
    ((url.drop searchStart).findIdx? isPathDelim).map (searchStart + ·)
  -- Find "://" protocol separator
  let protocolEnd0 : Option Nat := indexOfFrom url "://".toList searchStart
  -- If path, param or query starts before ://, :// doesn't indicate protocol.
  let protocolEnd1 : Option Nat :=
    match earlyPath, protocolEnd0 with
    | some e, some pe => if e < pe then none else some pe
    | _, pe => pe
  let protocolEnd : Nat :=
    match protocolEnd1 with
    | none => searchStart
    | some pe => pe + 3
  -- Find path start after protocol
  let pathStart : Option Nat :=
    ((url.drop protocolEnd).findIdx? isPathDelim).map (protocolEnd + ·)
  match pathStart with
  | some ps =>
    -- Check for fragment before path
    let hashPos : Option Nat := indexOfFrom url "#".toList searchStart
    match hashPos with
    | some hp =>
      if hp < ps then "/".toList
      else if url.getD ps ' ' ≠ '/' then '/' :: (url.take hp).drop ps
      else (url.take hp).drop ps
    | none =>
      if url.getD ps ' ' ≠ '/' then '/' :: (url.take url.length).drop ps
      else (url.take url.length).drop ps
  | none => "/".toList

/-! ### The live matcher (`robots-matcher.ts`) -/

/-- `Match` from `robots-matcher.ts`: priority (`-1` = `K_NO_MATCH_PRIORITY`)
and matching line. -/
structure RMatch where
  priority : Int
  line : Nat
deriving DecidableEq, Repr

/-- A cleared `Match` (`K_NO_MATCH_PRIORITY`, line 0). -/
def RMatch.cleared : RMatch := ⟨-1, 0⟩

/-- `Match.higherPriorityMatch` from `robots-matcher.ts`. -/
def RMatch.higherPriorityMatch (a b : RMatch) : RMatch :=
  if a.priority > b.priority then a else b

/-- The mutable fields of `RobotsMatcher`. -/
structure MatcherState where
  allowGlobal : RMatch
  allowSpecific : RMatch
  disallowGlobal : RMatch
  disallowSpecific : RMatch
  seenGlobalAgent : Bool
  seenSpecificAgent : Bool
  everSeenSpecificAgent : Bool
  seenSeparator : Bool
  path : List Char
  userAgents : List (List Char)
deriving DecidableEq, Repr

/-- A freshly constructed `RobotsMatcher`. -/
def freshMatcher : MatcherState :=
  ⟨.cleared, .cleared, .cleared, .cleared, false, false, false, false, [], []⟩

/-- `LongestMatchRobotsMatchStrategy.matchAllow` (identical to
`matchDisallow`): pattern length on match, `-1` otherwise. -/
def matchPriority (path pattern : List Char) : Int :=
  if patternMatches path pattern then (pattern.length : Int) else -1

/-- `RobotsMatcher.extractUserAgent` (also duplicated in
`parsed-robots.ts`). -/
def extractUserAgent (userAgent : List Char) : List Char :=
  userAgent.takeWhile (fun ch =>
    ('a' ≤ ch && ch ≤ 'z') || ('A' ≤ ch && ch ≤ 'Z') || ch = '-' || ch = '_')

/-- `seenAnyAgent` from `robots-matcher.ts`. -/
def seenAnyAgent (st : MatcherState) : Bool :=
  st.seenGlobalAgent || st.seenSpecificAgent

/-- `RobotsMatcher.handleRobotsStart`. -/
def handleRobotsStartM (st : MatcherState) : MatcherState :=
  { st with allowGlobal := .cleared, allowSpecific := .cleared,
            disallowGlobal := .cleared, disallowSpecific := .cleared,
            seenGlobalAgent := false, seenSpecificAgent := false,
            everSeenSpecificAgent := false, seenSeparator := false }

/-- `RobotsMatcher.handleUserAgent`. -/
def handleUserAgentM (st : MatcherState) (userAgent : List Char) : MatcherState :=
  let st :=
    if st.seenSeparator then
      { st with seenSpecificAgent := false, seenGlobalAgent := false,
                seenSeparator := false }
    else st
  -- `'*'` followed by nothing or whitespace is a global rule.
  if userAgent.length ≥ 1 ∧ userAgent.getD 0 ' ' = '*' ∧
      (userAgent.length = 1 ∨ isJsSpace (userAgent.getD 1 ' ')) then
    { st with seenGlobalAgent := true }
  else
    let extracted := extractUserAgent userAgent
    if st.userAgents.any
        (fun agent => extracted.map Char.toLower = agent.map Char.toLower) then
      { st with everSeenSpecificAgent := true, seenSpecificAgent := true }
    else st

/-- The candidate update in `handleAllow`/`handleDisallow`: set `(priority,
line)` only if strictly greater. -/
def updateMatch (m : RMatch) (priority : Int) (line : Nat) : RMatch :=
  if m.priority < priority then ⟨priority, line⟩ else m

/-- The `index.htm(l)` directory normalization shared by `handleAllow` of
`robots-matcher.ts` and `parsed-robots.ts`: if the value after its last `/`
starts with `/index.htm`, the extra pattern is the prefix up to and including
that `/`, anchored with `$`. -/
def indexHtmExtra (value : List Char) : Option (List Char) :=
  match lastIndexOfChar value '/' with
  | some slashPos =>
    if ("/index.htm".toList).isPrefixOf (value.drop slashPos) then
      some (value.take (slashPos + 1) ++ ['$'])
    else none
  | none => none

theorem indexHtmExtra_length {value p : List Char}
    (h : indexHtmExtra value = some p) : p.length < value.length := by
  unfold indexHtmExtra at h
  split at h
  next s _ =>
    split at h
    next hpre =>
      obtain rfl : p = value.take (s + 1) ++ ['$'] := (Option.some.inj h).symm
      have hlen : ("/index.htm".toList).length ≤ (value.drop s).length :=
        List.IsPrefix.length_le (by simpa using hpre)
      simp at hlen
      have ht : (value.take (s + 1)).length ≤ s + 1 := by
        simp [List.length_take]
      simp only [List.length_append, List.length_cons, List.length_nil]
      omega
    next => cases h
  next => cases h

/-- The candidate update of `handleAllow` when the pattern matched. -/
def applyAllowUpdate (st : MatcherState) (priority : Int) (lineNum : Nat) :
    MatcherState :=
  if st.seenSpecificAgent then
    { st with allowSpecific := updateMatch st.allowSpecific priority lineNum }
  else
    { st with allowGlobal := updateMatch st.allowGlobal priority lineNum }

/-- `RobotsMatcher.handleAllow`.  The source recurses once
(`this.handleAllow(lineNum, newPattern)`) on the extra `index.htm(l)` pattern;
that pattern ends in `/$`, so its own normalization check never fires and the
recursion is unfolded here exactly once (`handleAllowM_eq_recursive` below
proves this unfolding equal to the source's recursive equation). -/
def handleAllowM (lineNum : Nat) (st : MatcherState) (value : List Char) :
    MatcherState :=
  if !seenAnyAgent st then st
  else
    let st := { st with seenSeparator := true }
    let priority := matchPriority st.path value
    if priority ≥ 0 then applyAllowUpdate st priority lineNum
    else
      match indexHtmExtra value with
      | some newPattern =>
        let priority2 := matchPriority st.path newPattern
        if priority2 ≥ 0 then applyAllowUpdate st priority2 lineNum else st
      | none => st

theorem lastIndexOfChar_hit {value : List Char} {c : Char} {s : Nat}
    (h : lastIndexOfChar value c = some s) :
    s < value.length ∧ value.get? s = some c := by
  unfold lastIndexOfChar at h
  cases hf : value.reverse.findIdx? (· = c) with
  | none => rw [hf] at h; cases h
  | some i =>
    rw [hf] at h
    obtain rfl : value.length - 1 - i = s := Option.some.inj h
    have hi := List.findIdx?_eq_some_iff_findIdx_eq.mp hf
    have hilt : i < value.reverse.length := hi.1
    have hidx : value.reverse.findIdx (· = c) = i := hi.2
    have hlen : i < value.length := by simpa using hilt
    have hw : value.reverse.findIdx (· = c) < value.reverse.length := by
      rw [hidx]; exact hilt
    have hget0 := @List.findIdx_getElem _ (· = c) value.reverse hw
    simp only [hidx] at hget0
    have hget : value.reverse.get ⟨i, by simpa using hlen⟩ = c := by
      rw [List.get_eq_getElem]
      simpa using hget0
    rw [List.get_eq_getElem, List.getElem_reverse] at hget
    refine ⟨by omega, ?_⟩
    rw [List.get?_eq_getElem?, List.getElem?_eq_getElem (by omega)]
    exact congrArg some hget

/-- The extra `index.htm(l)` pattern never triggers the normalization again:
its segment after the last `/` is `/$`. -/
theorem indexHtmExtra_extra_none {value p : List Char}
    (h : indexHtmExtra value = some p) : indexHtmExtra p = none := by
  unfold indexHtmExtra at h
  split at h
  next s hidx =>
    split at h
    next =>
      obtain rfl : p = value.take (s + 1) ++ ['$'] := (Option.some.inj h).symm
      obtain ⟨hs, hc⟩ := lastIndexOfChar_hit hidx
      have hc2 : value[s]? = some '/' := by rw [← List.get?_eq_getElem?]; exact hc
      -- the new pattern reversed is '$' :: '/' :: (value.take s).reverse
      have htake : value.take (s + 1) = value.take s ++ ['/'] := by
        rw [List.take_succ, hc2]
        rfl
      have hlen : (value.take s).length = s := by
        simp [List.length_take]
        omega
      have hrev : (value.take (s + 1) ++ ['$']).reverse
          = '$' :: '/' :: (value.take s).reverse := by
        rw [htake]
        simp
      have hfind : ((value.take (s + 1) ++ ['$']).reverse).findIdx? (· = '/')
          = some 1 := by
        rw [hrev]
        simp [List.findIdx?_cons]
      have hplen : (value.take (s + 1) ++ ['$']).length = s + 2 := by
        simp [List.length_take]
        omega
      have hlast : lastIndexOfChar (value.take (s + 1) ++ ['$']) '/' = some s := by
        unfold lastIndexOfChar
        rw [hfind, hplen]
        norm_num
      have hdrop : (value.take (s + 1) ++ ['$']).drop s = ['/', '$'] := by
        rw [htake, List.append_assoc, List.drop_left' hlen]
        rfl
      unfold indexHtmExtra
      rw [hlast]
      show (if ("/index.htm".toList).isPrefixOf
            ((value.take (s + 1) ++ ['$']).drop s) = true then
          some ((value.take (s + 1) ++ ['$']).take (s + 1) ++ ['$'])
        else none) = none
      rw [hdrop]
      have hnp : ("/index.htm".toList).isPrefixOf ['/', '$'] = false := by decide
      rw [hnp]
      rfl
    next => cases h
  next => cases h

/-- The unfolded `handleAllowM` satisfies the source's recursive equation
(`handleAllow` calling itself on the extra pattern). -/
theorem handleAllowM_eq_recursive (lineNum : Nat) (st : MatcherState)
    (value : List Char) :
    handleAllowM lineNum st value =
      (if !seenAnyAgent st then st
       else
         let st1 := { st with seenSeparator := true }
         let priority := matchPriority st1.path value
         if priority ≥ 0 then applyAllowUpdate st1 priority lineNum
         else
           match indexHtmExtra value with
           | some newPattern => handleAllowM lineNum st1 newPattern
           | none => st1) := by
  cases hseen : seenAnyAgent st with
  | false => simp [handleAllowM, hseen]
  | true =>
    simp only [handleAllowM, hseen, Bool.not_true, Bool.false_eq_true, if_false]
    by_cases hp : matchPriority st.path value ≥ 0
    · simp [hp]
    · have hpath : ({ st with seenSeparator := true } : MatcherState).path
          = st.path := rfl
      simp only [hpath, if_neg hp]
      cases hx : indexHtmExtra value with
      | none => rfl
      | some np =>
        have hnone := indexHtmExtra_extra_none hx
        have hseen1 : seenAnyAgent { st with seenSeparator := true } = true := by
          simpa [seenAnyAgent] using hseen
        simp only [handleAllowM, hseen1, Bool.not_true, Bool.false_eq_true,
          if_false, hnone]

/-- `RobotsMatcher.handleDisallow` (note: no empty-value check here). -/
def handleDisallowM (lineNum : Nat) (st : MatcherState) (value : List Char) :
    MatcherState :=
  if !seenAnyAgent st then st
  else
    let st := { st with seenSeparator := true }
    let priority := matchPriority st.path value
    if priority ≥ 0 then
      if st.seenSpecificAgent then
        { st with disallowSpecific :=
            updateMatch st.disallowSpecific priority lineNum }
      else
        { st with disallowGlobal := updateMatch st.disallowGlobal priority lineNum }
    else st

/-- Dispatch of one parse event to the `RobotsMatcher` callbacks. -/
def matcherStep (st : MatcherState) : PEvent → MatcherState
  | .start => handleRobotsStartM st
  | .userAgent _ v => handleUserAgentM st v
  | .allow n v => handleAllowM n st v
  | .disallow n v => handleDisallowM n st v
  | _ => st

/-- `RobotsMatcher.disallow`. -/
def disallowVerdict (st : MatcherState) : Bool :=
  if st.allowSpecific.priority > 0 ∨ st.disallowSpecific.priority > 0 then
    decide (st.disallowSpecific.priority > st.allowSpecific.priority)
  else if st.everSeenSpecificAgent then false
  else if st.disallowGlobal.priority > 0 ∨ st.allowGlobal.priority > 0 then
    decide (st.disallowGlobal.priority > st.allowGlobal.priority)
  else false

/-- `RobotsMatcher.matchingLine`. -/
def matchingLineV (st : MatcherState) : Nat :=
  if st.everSeenSpecificAgent then
    (RMatch.higherPriorityMatch st.disallowSpecific st.allowSpecific).line
  else
    (RMatch.higherPriorityMatch st.disallowGlobal st.allowGlobal).line

/-- `RobotsMatcher.initUserAgentsAndPath`: fails fast when the path does not
start with `/`. -/
def initUserAgentsAndPath (st : MatcherState) (userAgents : List (List Char))
    (path : List Char) : Except (List Char) MatcherState :=
  if !(['/'].isPrefixOf path) then .error "Path must start with /".toList
  else .ok { st with path := path, userAgents := userAgents }

/-- `RobotsMatcher.allowedByRobots`: extract the path, initialize, parse with
the matcher as handler, return `!disallow()` together with the final state. -/
def allowedByRobots (st : MatcherState) (robotsBody : List Char)
    (userAgents : List (List Char)) (url : List Char) :
    Except (List Char) (Bool × MatcherState) := do
  let st ← initUserAgentsAndPath st userAgents (getPathParamsQuery url)
  let st := (parseEvents robotsBody).foldl matcherStep st
  pure (!disallowVerdict st, st)

/-- `RobotsMatcher.oneAgentAllowedByRobots`. -/
def oneAgentAllowedByRobots (st : MatcherState) (robotsTxt : List Char)
    (userAgent : List Char) (url : List Char) :
    Except (List Char) (Bool × MatcherState) :=
  allowedByRobots st robotsTxt [userAgent] url

/-! ### The bulk rule collector (`parsed-robots.ts`) -/

/-- `ParsedRule` from `parsed-robots.ts`. -/
structure ParsedRule where
  pattern : List Char
  lineNumber : Nat
  isAllow : Bool
deriving DecidableEq, Repr

/-- `AgentGroup` from `parsed-robots.ts` (the `Set` of lowercase agent names
becomes a duplicate-free list in insertion order). -/
structure AgentGroup where
  agents : List (List Char)
  rules : List ParsedRule
  isGlobal : Bool
deriving DecidableEq, Repr

/-- `Set.prototype.add`. -/
def setAdd (s : List (List Char)) (x : List Char) : List (List Char) :=
  if x ∈ s then s else s ++ [x]

/-- The mutable fields of `RulesCollectorHandler`. -/
structure CollectorState where
  globalRules : List ParsedRule
  agentGroups : List AgentGroup
  currentGroup : Option AgentGroup
  seenSeparator : Bool
deriving DecidableEq, Repr

/-- `RulesCollectorHandler.handleRobotsStart`. -/
def handleRobotsStartC (_st : CollectorState) : CollectorState :=
  ⟨[], [], none, false⟩

/-- `RulesCollectorHandler.finalizeCurrentGroup`: keep the pending group only
when it collected at least one rule. -/
def finalizeCurrentGroup (st : CollectorState) : CollectorState :=
  match st.currentGroup with
  | some g =>
    if g.rules.length > 0 then { st with agentGroups := st.agentGroups ++ [g] }
    else st
  | none => st

/-- `RulesCollectorHandler.handleRobotsEnd`. -/
def handleRobotsEndC (st : CollectorState) : CollectorState :=
  finalizeCurrentGroup st

/-- `RulesCollectorHandler.handleUserAgent`. -/
def handleUserAgentC (st : CollectorState) (userAgent : List Char) :
    CollectorState :=
  let st :=
    if st.seenSeparator then
      { finalizeCurrentGroup st with currentGroup := none, seenSeparator := false }
    else st
  let st :=
    match st.currentGroup with
    | none => { st with currentGroup := some ⟨[], [], false⟩ }
    | some _ => st
  match st.currentGroup with
  | some g =>
    if userAgent.length ≥ 1 ∧ userAgent.getD 0 ' ' = '*' ∧
        (userAgent.length = 1 ∨ isJsSpace (userAgent.getD 1 ' ')) then
      { st with currentGroup := some { g with isGlobal := true } }
    else
      let extracted := extractUserAgent userAgent
      if extracted.length > 0 then
        let g2 := { g with agents := setAdd g.agents (extracted.map Char.toLower) }
        { st with currentGroup := some g2 }
      else st
  | none => st

/-- `RulesCollectorHandler.addRule`. -/
def addRuleC (st : CollectorState) (lineNum : Nat) (pattern : List Char)
    (isAllow : Bool) : CollectorState :=
  match st.currentGroup with
  | none => st
  | some g =>
    let rule : ParsedRule := ⟨pattern, lineNum, isAllow⟩
    let st := { st with seenSeparator := true,
                        currentGroup := some { g with rules := g.rules ++ [rule] } }
    if g.isGlobal then { st with globalRules := st.globalRules ++ [rule] }
    else st

/-- `RulesCollectorHandler.handleAllow` (empty value skipped; the
`index.htm(l)` extra rule always added when the value qualifies). -/
def handleAllowC (st : CollectorState) (lineNum : Nat) (value : List Char) :
    CollectorState :=
  if value.length = 0 then st
  else
    let st := addRuleC st lineNum value true
    match indexHtmExtra value with
    | some newPattern => addRuleC st lineNum newPattern true
    | none => st

/-- `RulesCollectorHandler.handleDisallow` (empty value skipped). -/
def handleDisallowC (st : CollectorState) (lineNum : Nat) (value : List Char) :
    CollectorState :=
  if value.length = 0 then st
  else addRuleC st lineNum value false

/-- Dispatch of one parse event to the `RulesCollectorHandler` callbacks. -/
def collectorStep (st : CollectorState) : PEvent → CollectorState
  | .start => handleRobotsStartC st
  | .endOfFile => handleRobotsEndC st
  | .userAgent _ v => handleUserAgentC st v
  | .allow n v => handleAllowC st n v
  | .disallow n v => handleDisallowC st n v
  | _ => st

/-- The final collector state of `ParsedRobots.parse`. -/
def collectRules (robotsBody : List Char) : CollectorState :=
  (parseEvents robotsBody).foldl collectorStep ⟨[], [], none, false⟩

/-- The `agentRulesMap` entry built by `ParsedRobots.parse`: the concatenated
rules of every finalized group containing the (lowercase) agent. -/
def rulesForAgent (groups : List AgentGroup) (agent : List Char) :
    List ParsedRule :=
  (groups.filter (fun g => agent ∈ g.agents)).flatMap (·.rules)

/-- `agentRulesMap.has(lowerAgent)` of `ParsedRobots.checkUrls`. -/
def hasAgentRules (groups : List AgentGroup) (agent : List Char) : Bool :=
  groups.any (fun g => agent ∈ g.agents)

/-- `UrlCheckResult.matchedRuleType`. -/
inductive RuleType where
  | allow
  | disallow
  | none
deriving DecidableEq, Repr

/-- `UrlCheckResult` from `parsed-robots.ts`. -/
structure UrlCheckResult where
  url : List Char
  allowed : Bool
  matchingLine : Nat
  matchedPattern : List Char
  matchedRuleType : RuleType
deriving DecidableEq, Repr

/-- Accumulator of the rule loop in `checkSingleUrl`: best Allow and best
Disallow (priority, line, pattern). -/
structure BestCandidates where
  bestAllowPriority : Int
  bestAllowLine : Nat
  bestAllowPattern : List Char
  bestDisallowPriority : Int
  bestDisallowLine : Nat
  bestDisallowPattern : List Char
deriving DecidableEq, Repr

/-- One iteration of the rule loop in `checkSingleUrl`. -/
def bestStep (path : List Char) (b : BestCandidates) (rule : ParsedRule) :
    BestCandidates :=
  if patternMatches path rule.pattern then
    let priority : Int := rule.pattern.length
    if rule.isAllow then
      if priority > b.bestAllowPriority then
        { b with bestAllowPriority := priority, bestAllowLine := rule.lineNumber,
                 bestAllowPattern := rule.pattern }
      else b
    else
      if priority > b.bestDisallowPriority then
        { b with bestDisallowPriority := priority,
                 bestDisallowLine := rule.lineNumber,
                 bestDisallowPattern := rule.pattern }
      else b
  else b

/-- The best-candidate state computed by `checkSingleUrl` over all rules. -/
def bestCandidates (path : List Char) (rules : List ParsedRule) :
    BestCandidates :=
  rules.foldl (bestStep path) ⟨-1, 0, [], -1, 0, []⟩

/-- `ParsedRobots.checkSingleUrl`. -/
def checkSingleUrl (url : List Char) (rules : List ParsedRule) : UrlCheckResult :=
  let path := getPathParamsQuery url
  let b := bestCandidates path rules
  -- When priorities are equal, Allow wins
  let allowed := decide (b.bestDisallowPriority ≤ b.bestAllowPriority)
  if b.bestAllowPriority > b.bestDisallowPriority then
    ⟨url, allowed, b.bestAllowLine, b.bestAllowPattern, .allow⟩
  else if b.bestDisallowPriority > b.bestAllowPriority then
    ⟨url, allowed, b.bestDisallowLine, b.bestDisallowPattern, .disallow⟩
  else if b.bestAllowPriority ≥ 0 then
    ⟨url, allowed, b.bestAllowLine, b.bestAllowPattern, .allow⟩
  else ⟨url, allowed, 0, [], .none⟩

/-- The rule list `ParsedRobots.checkUrls` selects for an agent: the specific
agent's rules when the map has them, else the global rules. -/
def checkUrlRules (robotsBody userAgent : List Char) : List ParsedRule :=
  let st := collectRules robotsBody
  let lowerAgent := (extractUserAgent userAgent).map Char.toLower
  if hasAgentRules st.agentGroups lowerAgent then
    rulesForAgent st.agentGroups lowerAgent
  else st.globalRules

/-- `ParsedRobots.checkUrl` (via `checkUrls` with a one-element array). -/
def checkUrlP (robotsBody userAgent url : List Char) : UrlCheckResult :=
  checkSingleUrl url (checkUrlRules robotsBody userAgent)

/-- The matcher state at the end of `allowedByRobots` (the `start` event has
reset all candidate state, so the initial candidate fields are irrelevant). -/
def matcherFinalState (body : List Char) (agents : List (List Char))
    (url : List Char) : MatcherState :=
  (parseEvents body).foldl matcherStep
    { freshMatcher with path := getPathParamsQuery url, userAgents := agents }

theorem handleRobotsStartM_init (st0 : MatcherState) (p : List Char)
    (ua : List (List Char)) :
    handleRobotsStartM { st0 with path := p, userAgents := ua }
      = { freshMatcher with path := p, userAgents := ua } := by
  cases st0; rfl

theorem allowedByRobots_run (st0 : MatcherState) (body : List Char)
    (agents : List (List Char)) (url : List Char)
    (h : ['/'].isPrefixOf (getPathParamsQuery url) = true) :
    allowedByRobots st0 body agents url
      = .ok (!disallowVerdict (matcherFinalState body agents url),
             matcherFinalState body agents url) := by
  unfold allowedByRobots initUserAgentsAndPath
  rw [h]
  show Except.ok _ = _
  unfold matcherFinalState parseEvents
  simp only [List.foldl_cons, matcherStep, handleRobotsStartM_init]

/-! ### Claim theorems -/

/-- C1: the bulk index and the live resolver do NOT agree on every input.
On `"User-agent: *\nDisallow: /\n\nUser-agent: FooBot\n"` with agent
`FooBot` and URL `http://x/y`, `oneAgentAllowedByRobots` allows (an
explicitly named group was seen, even without rules) while
`ParsedRobots.checkUrl` denies (the rule-less named group is dropped by
`finalizeCurrentGroup` and the global `Disallow: /` applies).  Likewise on
`"User-agent: FooBot\nDisallow:\nUser-agent: *\nDisallow: /x\n"` (an empty
`Disallow` is a separator for the live matcher but not for the collector,
which merges the `FooBot` and `*` groups). -/
theorem bulkIndex_liveResolver_divergence :
    ((oneAgentAllowedByRobots freshMatcher
        "User-agent: *\nDisallow: /\n\nUser-agent: FooBot\n".toList
        "FooBot".toList "http://x/y".toList).map Prod.fst = .ok true
      ∧ (checkUrlP "User-agent: *\nDisallow: /\n\nUser-agent: FooBot\n".toList
          "FooBot".toList "http://x/y".toList).allowed = false)
    ∧ ((oneAgentAllowedByRobots freshMatcher
        "User-agent: FooBot\nDisallow:\nUser-agent: *\nDisallow: /x\n".toList
        "FooBot".toList "http://x/x".toList).map Prod.fst = .ok true
      ∧ (checkUrlP
          "User-agent: FooBot\nDisallow:\nUser-agent: *\nDisallow: /x\n".toList
          "FooBot".toList "http://x/x".toList).allowed = false) :=
  ⟨⟨rfl, rfl⟩, ⟨rfl, rfl⟩⟩

/-- C2: whenever the best Allow and best Disallow candidates of the scope that
decides the verdict (specific if it holds a positive-priority candidate, else
global) have equal priority, the verdict is Allow — for the live matcher's
`disallow()` on the state after any parse, and for the bulk
`checkSingleUrl`. -/
theorem equalPriority_verdict_allow :
    (∀ body agents url,
      ((matcherFinalState body agents url).allowSpecific.priority > 0 ∨
        (matcherFinalState body agents url).disallowSpecific.priority > 0) →
      (matcherFinalState body agents url).disallowSpecific.priority =
        (matcherFinalState body agents url).allowSpecific.priority →
      disallowVerdict (matcherFinalState body agents url) = false) ∧
    (∀ body agents url,
      ¬((matcherFinalState body agents url).allowSpecific.priority > 0 ∨
        (matcherFinalState body agents url).disallowSpecific.priority > 0) →
      (matcherFinalState body agents url).disallowGlobal.priority =
        (matcherFinalState body agents url).allowGlobal.priority →
      disallowVerdict (matcherFinalState body agents url) = false) ∧
    (∀ body agent url,
      (bestCandidates (getPathParamsQuery url)
          (checkUrlRules body agent)).bestDisallowPriority =
        (bestCandidates (getPathParamsQuery url)
          (checkUrlRules body agent)).bestAllowPriority →
      (checkUrlP body agent url).allowed = true) := by
  refine ⟨?_, ?_, ?_⟩
  · intro body agents url hpos htie
    unfold disallowVerdict
    rw [if_pos hpos, htie]
    simp
  · intro body agents url hpos htie
    unfold disallowVerdict
    rw [if_neg hpos]
    by_cases hseen : (matcherFinalState body agents url).everSeenSpecificAgent
    · simp [hseen]
    · simp only [hseen, Bool.false_eq_true, if_false]
      by_cases hg : (matcherFinalState body agents url).disallowGlobal.priority > 0
          ∨ (matcherFinalState body agents url).allowGlobal.priority > 0
      · rw [if_pos hg, htie]; simp
      · rw [if_neg hg]
  · intro body agent url htie
    unfold checkUrlP checkSingleUrl
    dsimp only
    split_ifs <;> simp [htie]

/-- C2 witness: concrete tie inputs for all three conjuncts. -/
theorem equalPriority_verdict_allow_witness :
    (((matcherFinalState "User-agent: FooBot\nDisallow: /x\nAllow: /x\n".toList
        ["FooBot".toList] "http://x/x".toList).allowSpecific.priority > 0 ∨
      (matcherFinalState "User-agent: FooBot\nDisallow: /x\nAllow: /x\n".toList
        ["FooBot".toList] "http://x/x".toList).disallowSpecific.priority > 0)
    ∧ (matcherFinalState "User-agent: FooBot\nDisallow: /x\nAllow: /x\n".toList
        ["FooBot".toList] "http://x/x".toList).disallowSpecific.priority =
      (matcherFinalState "User-agent: FooBot\nDisallow: /x\nAllow: /x\n".toList
        ["FooBot".toList] "http://x/x".toList).allowSpecific.priority
    ∧ disallowVerdict (matcherFinalState
        "User-agent: FooBot\nDisallow: /x\nAllow: /x\n".toList
        ["FooBot".toList] "http://x/x".toList) = false)
    ∧ (¬((matcherFinalState "User-agent: *\nDisallow: /x\nAllow: /x\n".toList
        ["FooBot".toList] "http://x/x".toList).allowSpecific.priority > 0 ∨
      (matcherFinalState "User-agent: *\nDisallow: /x\nAllow: /x\n".toList
        ["FooBot".toList] "http://x/x".toList).disallowSpecific.priority > 0)
    ∧ (matcherFinalState "User-agent: *\nDisallow: /x\nAllow: /x\n".toList
        ["FooBot".toList] "http://x/x".toList).disallowGlobal.priority =
      (matcherFinalState "User-agent: *\nDisallow: /x\nAllow: /x\n".toList
        ["FooBot".toList] "http://x/x".toList).allowGlobal.priority
    ∧ disallowVerdict (matcherFinalState
        "User-agent: *\nDisallow: /x\nAllow: /x\n".toList
        ["FooBot".toList] "http://x/x".toList) = false)
    ∧ ((bestCandidates (getPathParamsQuery "http://x/x".toList)
        (checkUrlRules "User-agent: *\nDisallow: /x\nAllow: /x\n".toList
          "FooBot".toList)).bestDisallowPriority =
      (bestCandidates (getPathParamsQuery "http://x/x".toList)
        (checkUrlRules "User-agent: *\nDisallow: /x\nAllow: /x\n".toList
          "FooBot".toList)).bestAllowPriority
    ∧ (checkUrlP "User-agent: *\nDisallow: /x\nAllow: /x\n".toList
        "FooBot".toList "http://x/x".toList).allowed = true) :=
  ⟨⟨by decide, by decide,
    equalPriority_verdict_allow.1 _ _ _ (by decide) (by decide)⟩,
   ⟨by decide, by decide,
    equalPriority_verdict_allow.2.1 _ _ _ (by decide) (by decide)⟩,
   ⟨by decide,
    equalPriority_verdict_allow.2.2 _ _ _ (by decide)⟩⟩

/-- C3 counterexample: an empty `Disallow` is NOT a no-op in `RobotsMatcher`:
after parsing `"User-agent: *\nDisallow:\n"` the global disallow candidate
holds priority 0 at line 2 — a zero-length matching rule was registered,
where the claim requires the cleared candidate `(-1, 0)`. -/
theorem emptyDisallow_registers_candidate :
    (matcherFinalState "User-agent: *\nDisallow:\n".toList ["FooBot".toList]
        "http://x/y".toList).disallowGlobal = ⟨0, 2⟩
    ∧ (⟨0, 2⟩ : RMatch) ≠ RMatch.cleared :=
  ⟨rfl, by decide⟩

theorem disallowVerdict_update_zero_spec (st : MatcherState) (lineNum : Nat) :
    disallowVerdict { st with
        seenSeparator := true,
        disallowSpecific := updateMatch st.disallowSpecific 0 lineNum }
      = disallowVerdict st := by
  unfold disallowVerdict updateMatch
  dsimp only
  have h0 : (({ priority := 0, line := lineNum } : RMatch)).priority = 0 := rfl
  split_ifs <;> simp only [h0] at * <;>
    first
      | rfl
      | (rw [decide_eq_decide]; omega)
      | (rw [decide_eq_false_iff_not]; omega)
      | (rw [eq_comm, decide_eq_false_iff_not]; omega)

theorem disallowVerdict_update_zero_glob (st : MatcherState) (lineNum : Nat) :
    disallowVerdict { st with
        seenSeparator := true,
        disallowGlobal := updateMatch st.disallowGlobal 0 lineNum }
      = disallowVerdict st := by
  unfold disallowVerdict updateMatch
  dsimp only
  have h0 : (({ priority := 0, line := lineNum } : RMatch)).priority = 0 := rfl
  split_ifs <;> simp only [h0] at * <;>
    first
      | rfl
      | (rw [decide_eq_decide]; omega)
      | (rw [decide_eq_false_iff_not]; omega)
      | (rw [eq_comm, decide_eq_false_iff_not]; omega)

/-- C3 amended: an empty `Disallow` is a true no-op in the bulk collector; in
`RobotsMatcher` it may register a priority-0 candidate when a scope is
active, but the verdict `disallow()` is unchanged by the call (the verdict
only compares priorities strictly greater than 0). -/
theorem emptyDisallow_amended :
    (∀ st lineNum, handleDisallowC st lineNum [] = st)
    ∧ (∀ st lineNum,
        disallowVerdict (handleDisallowM lineNum st []) = disallowVerdict st) := by
  constructor
  · intro st lineNum; rfl
  · intro st lineNum
    cases hseen : seenAnyAgent st with
    | false => simp [handleDisallowM, hseen]
    | true =>
      have hm : matchPriority st.path ([] : List Char) = 0 := by
        simp [matchPriority, patternMatches, matchesLoop]
      simp only [handleDisallowM, hseen, Bool.not_true, Bool.false_eq_true,
        if_false]
      rw [show ({ st with seenSeparator := true } : MatcherState).path
          = st.path from rfl, hm]
      rw [if_pos (by omega : (0 : Int) ≥ 0)]
      cases hspec : st.seenSpecificAgent with
      | true =>
        simp only [hspec, if_true]
        exact disallowVerdict_update_zero_spec st lineNum
      | false =>
        simp only [hspec, Bool.false_eq_true, if_false]
        exact disallowVerdict_update_zero_glob st lineNum

/-- C4 counterexample: the extra directory rule is not triggered only by
values ending in `/index.htm` or `/index.html` — the value `/a/index.htmx`
(ending in neither) also registers the extra anchored rule `/a/$` in the
collector, because the source checks `startsWith("/index.htm")` on the
segment after the last `/`. -/
theorem indexHtm_trigger_counterexample :
    (collectRules "User-agent: *\nAllow: /a/index.htmx\n".toList).globalRules
      = [⟨"/a/index.htmx".toList, 2, true⟩, ⟨"/a/$".toList, 2, true⟩]
    ∧ ("/index.htm".toList).isSuffixOf "/a/index.htmx".toList = false
    ∧ ("/index.html".toList).isSuffixOf "/a/index.htmx".toList = false :=
  ⟨by decide, by decide, by decide⟩

/-- C4 amended: in the collector, a nonempty Allow value registers the
original rule and additionally the anchored directory rule exactly when
`indexHtmExtra` fires, i.e. when the segment of the value from its last `/`
onward starts with `/index.htm` (not only when it ends in `/index.htm(l)`);
the spec's concrete scenario still holds in both resolvers. -/
theorem indexHtm_extra_rule_amended :
    (∀ st lineNum value g, st.currentGroup = some g → value ≠ [] →
      (handleAllowC st lineNum value).currentGroup
        = some { g with rules := g.rules ++ (⟨value, lineNum, true⟩ :
            ParsedRule) :: ((indexHtmExtra value).toList.map
              fun p => (⟨p, lineNum, true⟩ : ParsedRule)) })
    ∧ ((oneAgentAllowedByRobots freshMatcher
        "User-agent: *\nAllow: /allowed/index.html\nDisallow: /\n".toList
        "Bot".toList "http://x/allowed/".toList).map Prod.fst = .ok true
    ∧ (oneAgentAllowedByRobots freshMatcher
        "User-agent: *\nAllow: /allowed/index.html\nDisallow: /\n".toList
        "Bot".toList "http://x/allowed/index.htm".toList).map Prod.fst
        = .ok false
    ∧ (checkUrlP "User-agent: *\nAllow: /allowed/index.html\nDisallow: /\n".toList
        "Bot".toList "http://x/allowed/".toList).allowed = true
    ∧ (checkUrlP "User-agent: *\nAllow: /allowed/index.html\nDisallow: /\n".toList
        "Bot".toList "http://x/allowed/index.htm".toList).allowed = false) := by
  constructor
  · intro st lineNum value g hg hne
    unfold handleAllowC
    rw [if_neg (by simpa using hne)]
    cases hx : indexHtmExtra value with
    | none =>
      unfold addRuleC
      rw [hg]
      by_cases hglob : g.isGlobal <;> simp [hglob]
    | some np =>
      unfold addRuleC
      rw [hg]
      by_cases hglob : g.isGlobal <;> simp [hglob]
  · exact ⟨rfl, rfl, rfl, rfl⟩

/-- The UTF-8 BOM bytes 0xEF 0xBB 0xBF as they appear in a JavaScript string
read byte-per-character. -/
def bomChars : List Char := [Char.ofNat 0xEF, Char.ofNat 0xBB, Char.ofNat 0xBF]

theorem parseLoop_bom_mismatch (c : Char) (rest : List Char)
    (h : c.toNat ≠ 0xEF) :
    parseLoop (c :: rest) initParserState
      = parseLoop (c :: rest) { initParserState with bomPos := 3 } := by
  have h1 : ¬(initParserState.bomPos < utf8BOM.length ∧
      c.toNat = utf8BOM.getD initParserState.bomPos 0) := fun hx =>
    h (by simpa [utf8BOM, initParserState] using hx.2)
  have h2 : ¬(({ initParserState with bomPos := 3 } : ParserState).bomPos
        < utf8BOM.length ∧
      c.toNat = utf8BOM.getD
        ({ initParserState with bomPos := 3 } : ParserState).bomPos 0) := by
    simp [utf8BOM, initParserState]
  simp only [parseLoop]
  rw [if_neg h1, if_neg h2]

/-- C6 counterexample: prepending the BOM does not always yield the same
events — a text whose first character is the byte 0xEF loses it to the BOM
scan when parsed bare, but keeps it when the full BOM precedes it. -/
theorem bom_roundtrip_counterexample :
    parseEvents (bomChars ++ [Char.ofNat 0xEF])
      ≠ parseEvents [Char.ofNat 0xEF] := by decide

/-- C6 amended: parsing with the 3-byte BOM prepended produces exactly the
same handler events as parsing without it, provided the text does not itself
begin with the first BOM byte 0xEF (in that case the bare parse consumes the
text's own leading BOM-prefix). -/
theorem bom_roundtrip_amended (text : List Char)
    (h : text.head?.map Char.toNat ≠ some 0xEF) :
    parseEvents (bomChars ++ text) = parseEvents text := by
  unfold parseEvents
  congr 1
  have h3 : parseLoop (bomChars ++ text) initParserState
      = parseLoop text { initParserState with bomPos := 3 } := rfl
  rw [h3]
  cases text with
  | nil => rfl
  | cons c rest =>
    have hc : c.toNat ≠ 0xEF := fun hx => h (by simp [hx])
    exact (parseLoop_bom_mismatch c rest hc).symm

/-- C6 witness: BOM round-trip on a concrete ordinary robots.txt. -/
theorem bom_roundtrip_amended_witness :
    ("User-agent: FooBot\nDisallow: /\n".toList).head?.map Char.toNat
        ≠ some 0xEF
    ∧ parseEvents (bomChars ++ "User-agent: FooBot\nDisallow: /\n".toList)
      = parseEvents "User-agent: FooBot\nDisallow: /\n".toList :=
  ⟨by decide, bom_roundtrip_amended _ (by decide)⟩

theorem parseLoop_nil (st : ParserState) :
    parseLoop [] st =
      parseAndEmitLine (st.lineNum + 1) st.lineBuffer st.lineTooLong
        ++ [.endOfFile] := rfl

/-- Processing a run of `n` ordinary content characters: the buffer takes at
most `kMaxLineLen - 1` of them, and once full only the too-long flag is
set. -/
theorem parseLoop_content_run (c : Char) (hc1 : c.toNat ≠ 0x0a)
    (hc2 : c.toNat ≠ 0x0d) :
    ∀ (n : Nat) (st : ParserState), st.bomPos = 3 →
      parseLoop (List.replicate n c) st =
        parseLoop []
          { st with
              lineBuffer := st.lineBuffer ++
                List.replicate
                  (min n (kMaxLineLen - 1 - st.lineBuffer.length)) c,
              lineTooLong := st.lineTooLong ||
                decide (kMaxLineLen - 1 - st.lineBuffer.length < n),
              lastWasCarriageReturn :=
                if n = 0 then st.lastWasCarriageReturn else false } := by
  intro n
  induction n with
  | zero =>
    intro st h3
    have hrec : ({ st with
        lineBuffer := st.lineBuffer ++
          List.replicate (min 0 (kMaxLineLen - 1 - st.lineBuffer.length)) c,
        lineTooLong := st.lineTooLong ||
          decide (kMaxLineLen - 1 - st.lineBuffer.length < 0),
        lastWasCarriageReturn :=
          if 0 = 0 then st.lastWasCarriageReturn else false } : ParserState)
        = st := by
      cases st; simp
    rw [hrec]
    rfl
  | succ n ih =>
    intro st h3
    cases st with
    | mk lb ln bp lcr tl =>
      dsimp only at h3
      subst h3
      rw [List.replicate_succ]
      conv_lhs => simp only [parseLoop]
      rw [if_neg (show ¬(3 < utf8BOM.length ∧ c.toNat = utf8BOM.getD 3 0) from
            by simp [utf8BOM])]
      rw [if_neg (show ¬(c.toNat = 10 ∨ c.toNat = 13) from by simp [hc1, hc2])]
      dsimp only
      by_cases hlen : lb.length < kMaxLineLen - 1
      · rw [if_pos hlen, ih _ rfl]
        dsimp only
        congr 1
        rw [ParserState.mk.injEq]
        refine ⟨?_, rfl, rfl, ?_, ?_⟩
        · rw [List.append_assoc]
          congr 1
          rw [List.singleton_append, ← List.replicate_succ]
          congr 1
          simp only [List.length_append, List.length_cons, List.length_nil]
          omega
        · simp
        · congr 1
          rw [decide_eq_decide]
          simp only [List.length_append, List.length_cons, List.length_nil]
          omega
      · rw [if_neg hlen, ih _ rfl]
        dsimp only
        congr 1
        rw [ParserState.mk.injEq]
        refine ⟨?_, rfl, rfl, ?_, ?_⟩
        · rw [show min n (kMaxLineLen - 1 - lb.length) = 0 from by omega,
              show min (n + 1) (kMaxLineLen - 1 - lb.length) = 0 from by omega]
        · simp
        · rw [show decide (kMaxLineLen - 1 - lb.length < n + 1) = true from by
              simp; omega]
          simp

theorem jsTrim_replicate_b (n : Nat) :
    jsTrim (List.replicate n 'b') = List.replicate n 'b' := by
  have hd : (List.replicate n 'b').dropWhile isJsSpace = List.replicate n 'b' := by
    cases n with
    | zero => rfl
    | succ m =>
      rw [List.replicate_succ, List.dropWhile_cons,
        show isJsSpace 'b' = false from rfl]
      simp
  unfold jsTrim
  rw [hd, List.reverse_replicate, hd, List.reverse_replicate]

theorem escScan_replicate_b (n : Nat) :
    escScan (List.replicate n 'b') = (0, false) := by
  induction n with
  | zero => rfl
  | succ m ih =>
    rw [List.replicate_succ]
    cases m with
    | zero => rfl
    | succ k =>
      cases k with
      | zero => rw [show List.replicate 1 'b' = ['b'] from rfl]; rfl
      | succ j =>
        rw [List.replicate_succ, List.replicate_succ]
        rw [List.replicate_succ, List.replicate_succ] at ih
        show escScan ('b' :: 'b' :: 'b' :: List.replicate j 'b') = (0, false)
        rw [show escScan ('b' :: 'b' :: 'b' :: List.replicate j 'b')
            = escScan ('b' :: 'b' :: List.replicate j 'b') from rfl]
        exact ih

theorem maybeEscapePattern_replicate_b (n : Nat) :
    maybeEscapePattern (List.replicate n 'b') = (List.replicate n 'b', false) := by
  unfold maybeEscapePattern
  rw [escScan_replicate_b]
  rfl

/-- The key/value analysis of a logical line `a:bbbb…b`: key `a`, value the
run of `b`s, an unknown directive. -/
theorem parseAndEmitLine_key_run (n : Nat) (tl : Bool) :
    parseAndEmitLine 1 ('a' :: ':' :: List.replicate n 'b') tl =
      [.unknown 1 ['a'] (List.replicate n 'b'),
       .lineMetadata 1 ⟨false, false, false, true, false, tl, false⟩] := by
  have hhash : indexOfChar ('a' :: ':' :: List.replicate n 'b') '#' = none := by
    unfold indexOfChar
    rw [List.findIdx?_cons, if_neg (by decide)]
    rw [List.findIdx?_cons, if_neg (by decide)]
    rw [List.findIdx?_succ, List.findIdx?_succ, List.findIdx?_replicate]
    simp
  have htrim : jsTrim ('a' :: ':' :: List.replicate n 'b')
      = 'a' :: ':' :: List.replicate n 'b' := by
    unfold jsTrim
    rw [List.dropWhile_cons, show isJsSpace 'a' = false from rfl]
    simp only [Bool.false_eq_true, if_false]
    rw [List.reverse_cons, List.reverse_cons, List.reverse_replicate]
    rw [List.append_assoc]
    have hdw : ((List.replicate n 'b') ++ ([':'] ++ ['a'])).dropWhile isJsSpace
        = (List.replicate n 'b') ++ ([':'] ++ ['a']) := by
      cases n with
      | zero =>
        rw [List.replicate_zero, List.nil_append]
        rfl
      | succ m =>
        rw [List.replicate_succ, List.cons_append, List.dropWhile_cons,
          show isJsSpace 'b' = false from rfl]
        simp
    rw [hdw, List.reverse_append, List.reverse_append, List.reverse_replicate]
    rfl
  have hcolon : indexOfChar ('a' :: ':' :: List.replicate n 'b') ':' = some 1 := by
    unfold indexOfChar
    rw [List.findIdx?_cons, if_neg (by decide), List.findIdx?_cons,
      if_pos (by decide)]
  unfold parseAndEmitLine getKeyAndValueFrom
  rw [hhash]
  dsimp only
  rw [htrim]
  rw [if_neg (by simp : ¬('a' :: ':' :: List.replicate n 'b' = [])), hcolon]
  dsimp only
  rw [show ('a' :: ':' :: List.replicate n 'b').take 1 = ['a'] from rfl,
      show ('a' :: ':' :: List.replicate n 'b').drop 2
        = List.replicate n 'b' from rfl,
      jsTrim_replicate_b]
  rw [show jsTrim ['a'] = ['a'] from rfl]
  rw [if_pos (by simp : (['a'] : List Char).length > 0)]
  dsimp only
  rw [show parsedKeyParse ['a'] = ⟨.unknown, false, ['a']⟩ from rfl]
  dsimp only
  rw [show needEscapeValueForKey .unknown = true from rfl]
  simp only [if_true]
  rw [maybeEscapePattern_replicate_b]
  simp [createLineMetadata, emitKeyValueToHandler]

/-- One ordinary content character extends the line buffer (or sets the
too-long flag) and disables the BOM scan. -/
theorem parseLoop_step_content (c : Char) (rest : List Char) (st : ParserState)
    (hbom : ¬(st.bomPos < utf8BOM.length ∧ c.toNat = utf8BOM.getD st.bomPos 0))
    (hnl : ¬(c.toNat = 0x0a ∨ c.toNat = 0x0d))
    (hlen : st.lineBuffer.length < kMaxLineLen - 1) :
    parseLoop (c :: rest) st
      = parseLoop rest
          { st with bomPos := utf8BOM.length,
                    lineBuffer := st.lineBuffer ++ [c],
                    lastWasCarriageReturn := false } := by
  cases st with
  | mk lb ln bp lcr tl =>
    conv_lhs => simp only [parseLoop]
    rw [if_neg hbom, if_neg hnl]
    dsimp only
    rw [if_pos hlen]

/-- C7 counterexample: a logical line of exactly 16664 = 2083×8 bytes
(`a:` followed by 16662 `b`s) keeps only its first 16663 bytes (the value
has 16661 `b`s, not 16662) and is flagged `isLineTooLong` although it does
not exceed 16664 — the code truncates at `K_MAX_LINE_LEN - 1 = 16663`. -/
theorem lineTooLong_budget_counterexample :
    parseEvents ('a' :: ':' :: List.replicate 16662 'b') =
      [.start, .unknown 1 ['a'] (List.replicate 16661 'b'),
       .lineMetadata 1 ⟨false, false, false, true, false, true, false⟩,
       .endOfFile] := by
  unfold parseEvents
  rw [parseLoop_step_content 'a' _ initParserState (by decide) (by decide)
      (by decide),
    parseLoop_step_content ':' _ _ (by decide) (by decide) (by decide)]
  rw [show ((initParserState.lineBuffer ++ ['a']) ++ [':'])
      = ['a', ':'] from rfl]
  rw [parseLoop_content_run 'b' (by decide) (by decide) 16662 _ rfl,
    parseLoop_nil]
  have hmin : min 16662 (kMaxLineLen - 1 -
      (([ 'a', ':' ] : List Char)).length) = 16661 := by
    norm_num [kMaxLineLen]
  have hdec : (false || decide (kMaxLineLen - 1 -
      (([ 'a', ':' ] : List Char)).length < 16662)) = true := by
    norm_num [kMaxLineLen]
  dsimp only
  rw [show initParserState.lineNum = 0 from rfl,
      show initParserState.lineTooLong = false from rfl]
  rw [hmin, hdec]
  rw [show (['a', ':'] : List Char) ++ List.replicate 16661 'b'
      = 'a' :: ':' :: List.replicate 16661 'b' from rfl]
  rw [show (0 : Nat) + 1 = 1 from rfl]
  rw [parseAndEmitLine_key_run]
  rfl

/-- A robots.txt text assembled from logical-line contents joined by the
LF terminator (a trailing empty line models a text ending in `\n`). -/
def joinLines : List (List Char) → List Char
  | [] => []
  | [l] => l
  | l :: l' :: ls => l ++ '\n' :: joinLines (l' :: ls)

/-- The events the amended C7 claim predicts: each logical line reaches
`parseAndEmitLine` truncated to the first `kMaxLineLen - 1` bytes of its
content and is flagged too long exactly when the content exceeds that
budget. -/
def truncatedLineEvents : Nat → List (List Char) → List PEvent
  | _, [] => []
  | n, l :: ls =>
    parseAndEmitLine n (l.take (kMaxLineLen - 1))
        (decide (kMaxLineLen - 1 < l.length)) ++
      truncatedLineEvents (n + 1) ls

/-- Processing a run of arbitrary ordinary content characters from a
post-BOM state: the buffer takes at most its remaining `kMaxLineLen - 1`
budget of them and the too-long flag records any overflow. -/
theorem parseLoop_content_run_any :
    ∀ (content : List Char),
      (∀ c ∈ content, c.toNat ≠ 0x0a ∧ c.toNat ≠ 0x0d) →
      ∀ (rest : List Char) (st : ParserState), st.bomPos = 3 →
        parseLoop (content ++ rest) st =
          parseLoop rest
            { st with
                lineBuffer := st.lineBuffer ++
                  content.take (kMaxLineLen - 1 - st.lineBuffer.length),
                lineTooLong := st.lineTooLong ||
                  decide
                    (kMaxLineLen - 1 - st.lineBuffer.length < content.length),
                lastWasCarriageReturn :=
                  if content = [] then st.lastWasCarriageReturn
                  else false } := by
  intro content
  induction content with
  | nil =>
    intro _ rest st _
    rw [List.nil_append]
    congr 1
    cases st with
    | mk lb ln bp lcr tl => simp
  | cons c cs ih =>
    intro hc rest st h3
    have hc1 : c.toNat ≠ 0x0a := (hc c (List.mem_cons_self c cs)).1
    have hc2 : c.toNat ≠ 0x0d := (hc c (List.mem_cons_self c cs)).2
    have hcs : ∀ x ∈ cs, x.toNat ≠ 0x0a ∧ x.toNat ≠ 0x0d :=
      fun x hx => hc x (List.mem_cons_of_mem c hx)
    cases st with
    | mk lb ln bp lcr tl =>
      dsimp only at h3
      subst h3
      rw [List.cons_append]
      conv_lhs => simp only [parseLoop]
      rw [if_neg (show ¬(3 < utf8BOM.length ∧ c.toNat = utf8BOM.getD 3 0) from
            by simp [utf8BOM])]
      rw [if_neg (show ¬(c.toNat = 10 ∨ c.toNat = 13) from by simp [hc1, hc2])]
      dsimp only
      by_cases hlen : lb.length < kMaxLineLen - 1
      · rw [if_pos hlen, ih hcs rest _ rfl]
        dsimp only
        congr 1
        rw [ParserState.mk.injEq]
        refine ⟨?_, rfl, rfl, ?_, ?_⟩
        · rw [List.append_assoc, List.singleton_append]
          congr 1
          rw [show kMaxLineLen - 1 - List.length lb
              = (kMaxLineLen - 1 - List.length (lb ++ [c])) + 1 from by
            simp only [List.length_append, List.length_cons, List.length_nil]
            omega]
          rw [List.take_succ_cons]
        · simp
        · congr 1
          rw [decide_eq_decide]
          simp only [List.length_append, List.length_cons, List.length_nil]
          omega
      · rw [if_neg hlen, ih hcs rest _ rfl]
        dsimp only
        congr 1
        rw [ParserState.mk.injEq]
        refine ⟨?_, rfl, rfl, ?_, ?_⟩
        · rw [show kMaxLineLen - 1 - List.length lb = 0 from by omega,
            List.take_zero, List.take_zero]
        · simp
        · rw [show decide (kMaxLineLen - 1 - List.length lb
                < List.length (c :: cs)) = true from by
            simp only [List.length_cons, decide_eq_true_eq]
            omega]
          simp

/-- A `\n` terminator reached from a post-BOM state that is not inside a
CRLF continuation emits the buffered line and resets the buffer, the
too-long flag and the carriage-return marker. -/
theorem parseLoop_newline_step (rest : List Char) (st : ParserState)
    (h3 : st.bomPos = 3) (hlcr : st.lastWasCarriageReturn = false) :
    parseLoop ('\n' :: rest) st =
      parseAndEmitLine (st.lineNum + 1) st.lineBuffer st.lineTooLong ++
        parseLoop rest
          { st with lineNum := st.lineNum + 1,
                    lineBuffer := [],
                    lastWasCarriageReturn := false,
                    lineTooLong := false } := by
  cases st with
  | mk lb ln bp lcr tl =>
    dsimp only at h3 hlcr
    subst h3
    subst hlcr
    conv_lhs => simp only [parseLoop]
    rw [if_neg (show ¬(3 < utf8BOM.length ∧ ('\n').toNat = utf8BOM.getD 3 0)
        from by simp [utf8BOM])]
    rw [if_pos (show ('\n').toNat = 10 ∨ ('\n').toNat = 13 from Or.inl rfl)]
    dsimp only
    rw [if_neg (show ¬(List.length lb = 0 ∧ false = true ∧ ('\n').toNat = 10)
        from by simp)]
    rfl

/-- Every logical line of an LF-joined, terminator-free-content text is
emitted truncated to the first `kMaxLineLen - 1` bytes and flagged iff its
content exceeds that budget — from any post-BOM clean line start. -/
theorem parseLoop_lines_run (lines : List (List Char)) :
    lines ≠ [] →
    (∀ l ∈ lines, ∀ c ∈ l, c.toNat ≠ 0x0a ∧ c.toNat ≠ 0x0d) →
    ∀ ln : Nat,
      parseLoop (joinLines lines) ⟨[], ln, 3, false, false⟩ =
        truncatedLineEvents (ln + 1) lines ++ [PEvent.endOfFile] := by
  induction lines with
  | nil => intro hne; exact absurd rfl hne
  | cons l ls ih =>
    intro _ hterm ln
    have hl : ∀ c ∈ l, c.toNat ≠ 0x0a ∧ c.toNat ≠ 0x0d :=
      hterm l (List.mem_cons_self l ls)
    cases ls with
    | nil =>
      have h := parseLoop_content_run_any l hl [] ⟨[], ln, 3, false, false⟩ rfl
      rw [List.append_nil] at h
      rw [show joinLines [l] = l from rfl, h, parseLoop_nil]
      dsimp only
      simp only [truncatedLineEvents, List.nil_append, List.append_nil,
        List.length_nil, Nat.sub_zero, Bool.false_or]
    | cons l2 ls2 =>
      have hrest : ∀ l' ∈ l2 :: ls2, ∀ c ∈ l', c.toNat ≠ 0x0a ∧ c.toNat ≠ 0x0d :=
        fun l' hl' => hterm l' (List.mem_cons_of_mem l hl')
      rw [show joinLines (l :: l2 :: ls2)
          = l ++ '\n' :: joinLines (l2 :: ls2) from rfl]
      rw [parseLoop_content_run_any l hl ('\n' :: joinLines (l2 :: ls2))
          ⟨[], ln, 3, false, false⟩ rfl]
      dsimp only
      simp only [List.nil_append, List.length_nil, Nat.sub_zero, Bool.false_or,
        ite_self]
      rw [parseLoop_newline_step _ _ rfl rfl]
      dsimp only
      rw [ih (by simp) hrest (ln + 1)]
      simp only [truncatedLineEvents, List.append_assoc]

/-- C7 amended: every logical line of a robots.txt text — the text assembled
from arbitrary CR/LF-free line contents joined by `\n` and not opening on
the BOM byte 0xEF — reaches `parseAndEmitLine` truncated to exactly the
first `kMaxLineLen - 1 = 16663` bytes of its content (the retained prefix
fully processed as key/value), and is flagged `isLineTooLong` exactly when
its content exceeds 16663 bytes. -/
theorem lineTruncation_amended (lines : List (List Char))
    (hne : lines ≠ [])
    (hterm : ∀ l ∈ lines, ∀ c ∈ l, c.toNat ≠ 0x0a ∧ c.toNat ≠ 0x0d)
    (hbom : (joinLines lines).head?.map Char.toNat ≠ some 0xEF) :
    parseEvents (joinLines lines) =
      .start :: (truncatedLineEvents 1 lines ++ [.endOfFile]) := by
  unfold parseEvents
  congr 1
  have hinit : parseLoop (joinLines lines) initParserState
      = parseLoop (joinLines lines) ⟨[], 0, 3, false, false⟩ := by
    cases hj : joinLines lines with
    | nil => rfl
    | cons c rest =>
      have hc : c.toNat ≠ 0xEF := fun hx => hbom (by simp [hj, hx])
      exact parseLoop_bom_mismatch c rest hc
  rw [hinit, parseLoop_lines_run lines hne hterm 0]

/-- C7 amended-claim witness: the truncation law at the concrete three-line
text `a:b`, empty line, `x`. -/
theorem lineTruncation_amended_witness :
    (([['a', ':', 'b'], [], ['x']] : List (List Char)) ≠ []
      ∧ (∀ l ∈ ([['a', ':', 'b'], [], ['x']] : List (List Char)),
          ∀ c ∈ l, c.toNat ≠ 0x0a ∧ c.toNat ≠ 0x0d)
      ∧ (joinLines [['a', ':', 'b'], [], ['x']]).head?.map Char.toNat
          ≠ some 0xEF)
    ∧ parseEvents (joinLines [['a', ':', 'b'], [], ['x']])
        = .start :: (truncatedLineEvents 1 [['a', ':', 'b'], [], ['x']]
            ++ [.endOfFile]) :=
  ⟨⟨by decide, by decide, by decide⟩,
   lineTruncation_amended [['a', ':', 'b'], [], ['x']]
     (by decide) (by decide) (by decide)⟩

/-- C8 counterexample: values of unknown-key lines are NOT emitted
unescaped — `foo: %aa` reaches the handler with value `%AA`
(`needEscapeValueForKey` returns true for `UNKNOWN`, not only for
Allow/Disallow). -/
theorem unknownKey_value_escaped :
    parseEvents "foo: %aa".toList
      = [.start, .unknown 1 "foo".toList "%AA".toList,
         .lineMetadata 1 ⟨false, false, false, true, false, false, false⟩,
         .endOfFile]
    ∧ "%AA".toList ≠ "%aa".toList :=
  ⟨rfl, by decide⟩

/-- C8 amended: percent-encoding normalization is applied to a line's value
iff the key classifies as anything other than User-Agent or Sitemap — that
is, for Allow, Disallow AND Unknown keys; User-Agent and Sitemap values pass
through unescaped. -/
theorem escape_iff_not_userAgent_sitemap :
    (∀ kt : KeyType, needEscapeValueForKey kt
        = !(kt = KeyType.userAgent || kt = KeyType.sitemap))
    ∧ parseEvents "user-agent: F%aaBot".toList
      = [.start, .userAgent 1 "F%aaBot".toList,
         .lineMetadata 1 ⟨false, false, false, true, false, false, false⟩,
         .endOfFile]
    ∧ parseEvents "sitemap: http://x/%aa".toList
      = [.start, .sitemap 1 "http://x/%aa".toList,
         .lineMetadata 1 ⟨false, false, false, true, false, false, false⟩,
         .endOfFile]
    ∧ parseEvents "allow: /%aa".toList
      = [.start, .allow 1 "/%AA".toList,
         .lineMetadata 1 ⟨false, false, false, true, false, false, false⟩,
         .endOfFile]
    ∧ parseEvents "disallow: /%aa".toList
      = [.start, .disallow 1 "/%AA".toList,
         .lineMetadata 1 ⟨false, false, false, true, false, false, false⟩,
         .endOfFile] :=
  ⟨fun kt => by cases kt <;> rfl, rfl, rfl, rfl, rfl⟩

theorem findIdx?_hit {α : Type} {l : List α} {p : α → Bool} {i : Nat}
    (h : l.findIdx? p = some i) :
    ∃ hi : i < l.length, p (l.get ⟨i, hi⟩) = true := by
  have h2 := List.findIdx?_eq_some_iff_findIdx_eq.mp h
  obtain ⟨hlt, hidx⟩ := h2
  have hw : l.findIdx p < l.length := by rw [hidx]; exact hlt
  have hg := @List.findIdx_getElem _ p l hw
  refine ⟨hlt, ?_⟩
  rw [List.get_eq_getElem]
  simpa [hidx] using hg

theorem isPrefixOf_slash_of_head {l : List Char} (h : l.head? = some '/') :
    (['/'] : List Char).isPrefixOf l = true := by
  cases l with
  | nil => cases h
  | cons c xs =>
    have hc : c = '/' := by simpa using h
    subst hc
    simp [List.isPrefixOf]

theorem head?_eq_of_isPrefixOf_singleton {c : Char} {l : List Char}
    (h : ([c] : List Char).isPrefixOf l = true) : l.head? = some c := by
  cases l with
  | nil => simp [List.isPrefixOf] at h
  | cons d xs =>
    simp [List.isPrefixOf] at h
    show some d = some c
    rw [h]

/-- The collaborator contract of `getPathParamsQuery`: the result always
starts with `/`. -/
theorem getPathParamsQuery_startsWith (url : List Char) :
    (['/'] : List Char).isPrefixOf (getPathParamsQuery url) = true := by
  unfold getPathParamsQuery
  dsimp only
  split
  next ps hpseq =>
    obtain ⟨i, hfind, hps⟩ := Option.map_eq_some'.mp hpseq
    obtain ⟨hilt, hpd⟩ := findIdx?_hit hfind
    rw [List.get_eq_getElem, List.getElem_drop] at hpd
    have hpslen : ps < url.length := by
      rw [List.length_drop] at hilt
      omega
    have hdelim : isPathDelim (url.get ⟨ps, hpslen⟩) = true := by
      rw [List.get_eq_getElem]
      subst hps
      exact hpd
    split
    next hp hhash =>
      split_ifs with h1 h2
      · decide
      · simp [List.isPrefixOf]
      · -- url[ps] = '/', and ps < hp because url[hp] = '#'
        push_neg at h2
        have hfound := List.find?_some hhash
        simp only [Bool.and_eq_true, decide_eq_true_eq] at hfound
        have hdropHash : (url.drop hp).head? = some '#' :=
          head?_eq_of_isPrefixOf_singleton hfound.2
        rw [List.head?_drop] at hdropHash
        have hpd2 : url[ps]? = some '/' := by
          rw [List.getElem?_eq_getElem hpslen]
          refine congrArg some ?_
          rw [← List.getD_eq_getElem url ' ' hpslen]
          exact h2
        have hlt : ps < hp := by
          rcases Nat.lt_or_ge ps hp with h | h
          · exact h
          · have : hp = ps := by omega
            subst this
            rw [hpd2] at hdropHash
            cases hdropHash
        apply isPrefixOf_slash_of_head
        rw [List.head?_drop, List.getElem?_take_of_lt hlt]
        exact hpd2
    next hhash =>
      split_ifs with h1
      · simp [List.isPrefixOf]
      · push_neg at h1
        apply isPrefixOf_slash_of_head
        rw [List.take_length, List.head?_drop, List.getElem?_eq_getElem hpslen]
        refine congrArg some ?_
        rw [← List.getD_eq_getElem url ' ' hpslen]
        exact h1
  next hpsnone => decide

/-- C9: `getPathParamsQuery` always yields a path starting with `/`;
`initUserAgentsAndPath` fails exactly when its path argument does not start
with `/`; consequently `allowedByRobots` never fails, for any inputs. -/
theorem pathSlash_noThrow :
    (∀ url, (['/'] : List Char).isPrefixOf (getPathParamsQuery url) = true)
    ∧ (∀ st agents path,
        (∃ e, initUserAgentsAndPath st agents path = .error e)
          ↔ ¬ (['/'] : List Char).isPrefixOf path = true)
    ∧ (∀ st body agents url, ∃ b st2,
        allowedByRobots st body agents url = .ok (b, st2)) := by
  refine ⟨getPathParamsQuery_startsWith, ?_, ?_⟩
  · intro st agents path
    unfold initUserAgentsAndPath
    by_cases hp : (['/'] : List Char).isPrefixOf path = true
    · simp [hp]
    · simp only [Bool.not_eq_true] at hp
      simp [hp]
  · intro st body agents url
    exact ⟨_, _, allowedByRobots_run st body agents url
      (getPathParamsQuery_startsWith url)⟩

/-- C10: a `RobotsMatcher` instance can be reused across queries with no
state leakage — the result of `allowedByRobots` (verdict and final state) is
independent of the instance's prior state, because `handleRobotsStart`
resets every candidate and flag at the start of each parse. -/
theorem matcher_reuse_no_state_leak (st1 st2 : MatcherState)
    (body : List Char) (agents : List (List Char)) (url : List Char) :
    allowedByRobots st1 body agents url
      = allowedByRobots st2 body agents url := by
  rw [allowedByRobots_run st1 body agents url (getPathParamsQuery_startsWith url),
      allowedByRobots_run st2 body agents url (getPathParamsQuery_startsWith url)]

/-- C4 witness: the amended collector characterization applied at the
concrete qualifying value `/allowed/index.html` in a live global group. -/
theorem indexHtm_extra_rule_amended_witness :
    (⟨[], [], some ⟨[], [], true⟩, false⟩ : CollectorState).currentGroup
      = some ⟨[], [], true⟩
    ∧ "/allowed/index.html".toList ≠ []
    ∧ (handleAllowC ⟨[], [], some ⟨[], [], true⟩, false⟩ 2
        "/allowed/index.html".toList).currentGroup
      = some { (⟨[], [], true⟩ : AgentGroup) with rules :=
          (⟨[], [], true⟩ : AgentGroup).rules ++
            (⟨"/allowed/index.html".toList, 2, true⟩ : ParsedRule) ::
              ((indexHtmExtra "/allowed/index.html".toList).toList.map
                fun p => (⟨p, 2, true⟩ : ParsedRule)) } :=
  ⟨rfl, by decide,
   indexHtm_extra_rule_amended.1 _ 2 _ _ rfl (by decide)⟩

end Robots
